import Mathlib

/-!
Verification of the depth-measure and elastic-metric core of a functional
data analysis library.

The development shallowly embeds the two source modules:

* `_depth.py` — `IntegratedDepth`, `ModifiedBandDepth`, `BandDepth`
  (fit/predict over samples of functions materialized on grids);
* `_elastic_metrics.py` — `fisher_rao_distance`, `amplitude_distance`,
  `phase_distance`, `warping_distance`.

Real-valued data is modelled over `ℚ` in the depth engine (all its
arithmetic is comparisons, counting and exact rational quadrature) and over
`ℝ` in the elastic-metric engine (square roots and `arccos` appear there).
IEEE NaN, produced by `np.sqrt` on a negative argument and propagated by
the subsequent arithmetic, is modelled by `Option ℝ` with `none` playing
the role of NaN.

External collaborators (the multivariate depth primitives, the elastic
registration optimizer and the grid container's derivative operator) are
not part of the verified core; they enter the embedded functions as
explicit function parameters.  `scipy.integrate.simps` is embedded exactly
(composite Simpson's rule for non-uniform grids, including the averaged
handling of an even number of points).
-/

/-- One block (a pair of adjacent intervals) of composite Simpson's rule on
a possibly non-uniform grid, transcribed from scipy's basic Simpson
routine: the summands run over `i = start, start+2, ...` while `i < stop`,
and each uses points `i`, `i+1`, `i+2`.  Out-of-range indices read the
default `0` (they do not occur for the index ranges the callers pass). -/
def basicSimpson {α : Type} [Field α] (ys xs : List α) (start stop : ℕ) : α :=
  ((List.range ((stop - start + 1) / 2)).map (fun k =>
    let i := start + 2 * k
    let h0 := xs.getD (i + 1) 0 - xs.getD i 0
    let h1 := xs.getD (i + 2) 0 - xs.getD (i + 1) 0
    (h0 + h1) / 6 *
      (ys.getD i 0 * (2 - h1 / h0) +
        ys.getD (i + 1) 0 * ((h0 + h1) * (h0 + h1) / (h0 * h1)) +
        ys.getD (i + 2) 0 * (2 - h0 / h1)))).sum

/-- `scipy.integrate.simps(ys, x=xs)`: composite Simpson quadrature over a
non-uniform grid.  For an odd number of points one basic pass covers all
points; for an even number the default `even='avg'` behaviour averages the
two ways of combining a Simpson pass with one boundary trapezoid. -/
def simpsList {α : Type} [Field α] (ys xs : List α) : α :=
  let N := ys.length
  if N % 2 = 0 then
    let tlast := (xs.getD (N - 1) 0 - xs.getD (N - 2) 0) *
      (ys.getD (N - 1) 0 + ys.getD (N - 2) 0) / 2
    let tfirst := (xs.getD 1 0 - xs.getD 0 0) * (ys.getD 1 0 + ys.getD 0 0) / 2
    (basicSimpson ys xs 0 (N - 3) + basicSimpson ys xs 1 (N - 2)) / 2 +
      (tlast + tfirst) / 2
  else
    basicSimpson ys xs 0 (N - 2)

theorem getD_map_mul_right {α : Type} [Field α] (ys : List α) (c : α) (i : ℕ) :
    (ys.map (fun y => y * c)).getD i 0 = ys.getD i 0 * c := by
  rcases lt_or_ge i ys.length with h | h
  · rw [List.getD_eq_getElem _ _ (by simpa using h), List.getD_eq_getElem _ _ h]
    simp
  · rw [List.getD_eq_default _ _ (by simpa using h), List.getD_eq_default _ _ h]
    simp

theorem basicSimpson_map_mul_right {α : Type} [Field α] (ys xs : List α)
    (c : α) (start stop : ℕ) :
    basicSimpson (ys.map (fun y => y * c)) xs start stop =
      basicSimpson ys xs start stop * c := by
  unfold basicSimpson
  rw [← List.sum_map_mul_right]
  congr 1
  apply List.map_congr_left
  intro k _
  simp only [getD_map_mul_right]
  ring

theorem simpsList_map_mul_right {α : Type} [Field α] (ys xs : List α) (c : α) :
    simpsList (ys.map (fun y => y * c)) xs = simpsList ys xs * c := by
  unfold simpsList
  simp only [List.length_map]
  split
  · simp only [getD_map_mul_right, basicSimpson_map_mul_right]
    ring
  · simp only [basicSimpson_map_mul_right]

theorem simpsList_map_div {α : Type} [Field α] (ys xs : List α) (c : α) :
    simpsList (ys.map (fun y => y / c)) xs = simpsList ys xs / c := by
  simp only [div_eq_mul_inv, simpsList_map_mul_right]

theorem getD_eq_zero_of_forall {α : Type} [Field α] (ys : List α)
    (h : ∀ y ∈ ys, y = 0) (i : ℕ) : ys.getD i 0 = 0 := by
  rcases lt_or_ge i ys.length with hi | hi
  · rw [List.getD_eq_getElem _ _ hi]
    exact h _ (ys.getElem_mem hi)
  · rw [List.getD_eq_default _ _ hi]

theorem basicSimpson_zero {α : Type} [Field α] (ys xs : List α)
    (h : ∀ y ∈ ys, y = 0) (start stop : ℕ) :
    basicSimpson ys xs start stop = 0 := by
  unfold basicSimpson
  apply List.sum_eq_zero
  intro x hx
  rcases List.mem_map.1 hx with ⟨k, _, rfl⟩
  simp only [getD_eq_zero_of_forall ys h]
  ring

theorem simpsList_zero {α : Type} [Field α] (ys xs : List α)
    (h : ∀ y ∈ ys, y = 0) : simpsList ys xs = 0 := by
  unfold simpsList
  dsimp only
  split
  · simp only [getD_eq_zero_of_forall ys h, basicSimpson_zero ys xs h]
    ring
  · exact basicSimpson_zero ys xs h _ _

/-!
## Depth engine data model

`FDGrid` models the slice of the functional-data container interface the
depth engine consumes: per-sample raw values (flattened over grid positions
and codomain components, row-major as in numpy), per-dimension grid points,
per-dimension domain intervals and the codomain dimension.
-/

/-- Errors raised by the embedded Python code. -/
inductive PyError where
  | notImplementedError (msg : String)
  | zeroDivisionError
  deriving DecidableEq

/-- Result of an embedded Python call: a value, or a raised error. -/
inductive PyResult (α : Type) where
  | ok (val : α)
  | error (err : PyError)
  deriving DecidableEq

/-- Functional sample container (external collaborator interface). -/
structure FDGrid where
  data_matrix : List (List ℚ)
  grid_points : List (List ℚ)
  domain_range : List (ℚ × ℚ)
  dim_codomain : ℕ
  deriving DecidableEq

/-- Fitted state of `BandDepth`: the stored reference sample. -/
structure BandDepthState where
  distribution : FDGrid
  deriving DecidableEq

/-- `BandDepth.fit`: rejects vector-valued samples, otherwise stores the
reference sample in `_distribution`. -/
def bandDepthFit (X : FDGrid) : PyResult BandDepthState :=
  if X.dim_codomain ≠ 1 then
    .error (.notImplementedError
      "Band depth not implemented for vector valued functions")
  else
    .ok ⟨X⟩

/-- The elementwise containment mask of `BandDepth.predict` conjoined over
all non-sample axes: `np.all((f1 <= X) & (X <= f2) | (f2 <= X) & (X <= f1))`
over the flattened per-sample values. -/
def bandContains (f1 f2 q : List ℚ) : Bool :=
  (f1.zip (q.zip f2)).all (fun t =>
    decide ((t.1 ≤ t.2.1 ∧ t.2.1 ≤ t.2.2) ∨ (t.2.2 ≤ t.2.1 ∧ t.2.1 ≤ t.1)))

/-- `itertools.combinations(l, 2)`: all unordered pairs `(l[i], l[j])`,
`i < j`, in lexicographic index order. -/
def combinations2 {α : Type} : List α → List (α × α)
  | [] => []
  | x :: xs => (xs.map (fun y => (x, y))) ++ combinations2 xs

/-- `BandDepth.predict`: for each query sample, the number of reference
pairs whose band contains it everywhere, divided by the number of pairs
enumerated.  When the reference sample has fewer than two functions the
loop body never runs, `num_in` and `n_total` are both the integer `0`, and
the final division raises `ZeroDivisionError`. -/
def bandDepthPredict (st : BandDepthState) (X : FDGrid) : PyResult (List ℚ) :=
  let pairs := combinations2 st.distribution.data_matrix
  let n_total := pairs.length
  if n_total = 0 then .error .zeroDivisionError
  else
    .ok (X.data_matrix.map (fun q =>
      ((pairs.countP (fun p => bandContains p.1 p.2 q) : ℕ) : ℚ) / (n_total : ℚ)))

theorem combinations2_length {α : Type} (l : List α) :
    (combinations2 l).length = Nat.choose l.length 2 := by
  induction l with
  | nil => rfl
  | cons x xs ih =>
    simp [combinations2, ih, Nat.choose_succ_succ, Nat.choose_one_right]

theorem countP_eq_sum_range {α : Type} (p : α → Bool) (l : List α) (d : α) :
    l.countP p = ∑ k ∈ Finset.range l.length, if p (l.getD k d) then 1 else 0 := by
  induction l with
  | nil => simp
  | cons a l ih =>
    rw [List.countP_cons, List.length_cons, Finset.sum_range_succ']
    simp [ih]

/-- The count accumulated by the pair loop of `BandDepth.predict`, as a
count over index pairs `i < j` into the reference list. -/
theorem countP_combinations2 {α : Type} (P : α → α → Bool) (l : List α) (d : α) :
    (combinations2 l).countP (fun p => P p.1 p.2) =
      ∑ i ∈ Finset.range l.length, ∑ j ∈ Finset.range l.length,
        if i < j ∧ P (l.getD i d) (l.getD j d) = true then 1 else 0 := by
  induction l with
  | nil => simp [combinations2]
  | cons x xs ih =>
    rw [combinations2, List.countP_append, List.countP_map, List.length_cons,
      Finset.sum_range_succ']
    have inner0 : (∑ j ∈ Finset.range (xs.length + 1),
        if 0 < j ∧ P ((x :: xs).getD 0 d) ((x :: xs).getD j d) = true
        then 1 else 0) = xs.countP (fun y => P x y) := by
      rw [Finset.sum_range_succ', countP_eq_sum_range (fun y => P x y) xs d]
      simp
    have innerS : ∀ i, (∑ j ∈ Finset.range (xs.length + 1),
        if i + 1 < j ∧ P ((x :: xs).getD (i + 1) d) ((x :: xs).getD j d) = true
        then 1 else 0) =
        ∑ k ∈ Finset.range xs.length,
          if i < k ∧ P (xs.getD i d) (xs.getD k d) = true then 1 else 0 := by
      intro i
      rw [Finset.sum_range_succ']
      simp [Nat.succ_lt_succ_iff]
    rw [inner0, Finset.sum_congr rfl (fun i _ => innerS i), ← ih]
    exact Nat.add_comm _ _

/-!
## Integrated depth

`IntegratedDepth.predict` applies the fitted multivariate primitive
pointwise and then runs `scipy.integrate.simps(integrand, x=s, axis=1)`
once per domain dimension, dividing the running array by that dimension's
interval length each time.  A per-sample `k`-dimensional pointwise-depth
array is kept flattened row-major; integrating over the current outer axis
turns `g` blocks of size `m` into one block of size `m`.
-/

/-- One `simps(integrand, x=s, axis=1)` step on a flattened per-sample
array: `s.length` outer blocks of size `flat.length / s.length`; output
position `j` is the Simpson quadrature of column `j` across the blocks. -/
def axisIntegrateFlat (s : List ℚ) (flat : List ℚ) : List ℚ :=
  let g := s.length
  let m := flat.length / g
  (List.range m).map (fun j =>
    simpsList ((List.range g).map (fun i => flat.getD (i * m + j) 0)) s)

/-- Fitted state of `IntegratedDepth`: the domain range and grid points
recorded by `fit`, plus the fitted multivariate depth primitive (an
external collaborator), modelled by its fitted `predict` map from a raw
data matrix to per-sample pointwise-depth arrays. -/
structure IntegratedDepthState where
  domain_range : List (ℚ × ℚ)
  grid_points : List (List ℚ)
  mvPredict : List (List ℚ) → List (List ℚ)

/-- `IntegratedDepth.fit`: records the sample's domain range and grid
points and fits the wrapped multivariate primitive (passed here as its
`fit` capability) on the sample's raw data matrix. -/
def integratedDepthFit
    (mvFit : List (List ℚ) → (List (List ℚ) → List (List ℚ)))
    (X : FDGrid) : IntegratedDepthState :=
  ⟨X.domain_range, X.grid_points, mvFit X.data_matrix⟩

/-- Body of the `for d, s in zip(X.domain_range, X.grid_points)` loop of
`IntegratedDepth.predict`: integrate over the current outer axis, set
`interval_len = d[1] - d[0]`, divide the integrand by it.  The state pair
is `(integrand, interval_len)` exactly as in the Python loop. -/
def integLoopStep (p : List ℚ × ℚ) (ds : (ℚ × ℚ) × List ℚ) : List ℚ × ℚ :=
  let integ := axisIntegrateFlat ds.2 p.1
  let len := ds.1.2 - ds.1.1
  (integ.map (fun v => v / len), len)

/-- The integration loop of `IntegratedDepth.predict`, started from the
`interval_len` value computed before the loop. -/
def integLoop (dims : List ((ℚ × ℚ) × List ℚ)) (init_len : ℚ)
    (fl : List ℚ) : List ℚ :=
  (dims.foldl integLoopStep (fl, init_len)).1

/-- `IntegratedDepth.predict`: pointwise depths from the fitted primitive,
then the dimension-by-dimension integration loop over the *query's* domain
range and grid points.  The initial `interval_len` is computed from
`self._domain_range[0]` recorded at fit time, but the loop overwrites it
before its first use. -/
def integratedDepthPredict (st : IntegratedDepthState) (X : FDGrid) :
    List (List ℚ) :=
  let pointwise := st.mvPredict X.data_matrix
  let init_len :=
    (st.domain_range.headD (0, 0)).2 - (st.domain_range.headD (0, 0)).1
  pointwise.map (fun fl =>
    integLoop (X.domain_range.zip X.grid_points) init_len fl)

/-- The full-domain quadrature: integrate over every domain dimension in
turn with no interval-length division. -/
def integrateAllFlat (gps : List (List ℚ)) (fl : List ℚ) : List ℚ :=
  gps.foldl (fun acc s => axisIntegrateFlat s acc) fl

theorem getD_map_div {α : Type} [Field α] (ys : List α) (c : α) (i : ℕ) :
    (ys.map (fun y => y / c)).getD i 0 = ys.getD i 0 / c := by
  rcases lt_or_ge i ys.length with h | h
  · rw [List.getD_eq_getElem _ _ (by simpa using h), List.getD_eq_getElem _ _ h]
    simp
  · rw [List.getD_eq_default _ _ (by simpa using h), List.getD_eq_default _ _ h]
    simp

theorem axisIntegrateFlat_map_div (s fl : List ℚ) (c : ℚ) :
    axisIntegrateFlat s (fl.map (fun v => v / c)) =
      (axisIntegrateFlat s fl).map (fun v => v / c) := by
  unfold axisIntegrateFlat
  simp only [List.length_map, List.map_map]
  apply List.map_congr_left
  intro j _
  simp only [Function.comp]
  rw [← simpsList_map_div]
  congr 1
  rw [List.map_map]
  apply List.map_congr_left
  intro i _
  simp only [Function.comp]
  exact getD_map_div fl c _

theorem integrateAllFlat_map_div (gps : List (List ℚ)) (fl : List ℚ) (c : ℚ) :
    integrateAllFlat gps (fl.map (fun v => v / c)) =
      (integrateAllFlat gps fl).map (fun v => v / c) := by
  induction gps generalizing fl with
  | nil => rfl
  | cons s gps ih =>
    show integrateAllFlat gps (axisIntegrateFlat s (fl.map (fun v => v / c))) = _
    rw [axisIntegrateFlat_map_div, ih]
    rfl

/-- The loop of `IntegratedDepth.predict` never reads the `interval_len`
it was started with: the first iteration overwrites it. -/
theorem integLoop_init_len (dims : List ((ℚ × ℚ) × List ℚ)) (a b : ℚ)
    (fl : List ℚ) : integLoop dims a fl = integLoop dims b fl := by
  cases dims with
  | nil => rfl
  | cons d rest => rfl

/-- Dividing by each dimension's interval length inside the loop equals
the raw full-domain quadrature divided once by the product of all the
interval lengths. -/
theorem integLoop_eq_integrateAll (dr : List (ℚ × ℚ)) (gps : List (List ℚ))
    (h : dr.length = gps.length) (c : ℚ) (fl : List ℚ) :
    integLoop (dr.zip gps) c fl =
      (integrateAllFlat gps fl).map
        (fun v => v / (dr.map (fun p => p.2 - p.1)).prod) := by
  induction dr generalizing gps c fl with
  | nil =>
    cases gps with
    | nil => simp [integLoop, integrateAllFlat]
    | cons s gps => simp at h
  | cons dhd dtl ih =>
    cases gps with
    | nil => simp at h
    | cons s gps =>
      have h' : dtl.length = gps.length := by simpa using h
      show integLoop (dtl.zip gps) (dhd.2 - dhd.1)
          ((axisIntegrateFlat s fl).map (fun v => v / (dhd.2 - dhd.1))) = _
      rw [ih gps h', integrateAllFlat_map_div, List.map_map]
      show _ = (integrateAllFlat gps (axisIntegrateFlat s fl)).map
        (fun v => v / ((dhd.2 - dhd.1) * (dtl.map (fun p => p.2 - p.1)).prod))
      apply List.map_congr_left
      intro v _
      simp only [Function.comp]
      rw [div_div]

/-!
## Elastic metric engine

Values are real; IEEE NaN (the result of `np.sqrt` on a negative argument,
propagated by all subsequent arithmetic) is modelled by `Option ℝ` with
`none` as NaN.  External collaborators enter as function parameters:
`derivOp` stands for the container's derivative operator (normalized grid
and values to derivative values on the grid), `regWarpDeriv` for the
composite "run elastic registration, take the fitted warping's derivative,
evaluate it on the normalized grid", and `regL2dist` for the L2 distance
between the SRSFs of the registered function and the template.
-/

/-- Modelled from the spec: `_normalize_scale` from the registration
module (outside the verified sources): affine rescaling of a grid onto
`[0, 1]`. -/
noncomputable def normalizeScale (xs : List ℝ) : List ℝ :=
  xs.map (fun t =>
    (t - xs.headD 0) / (xs.getD (xs.length - 1) 0 - xs.headD 0))

/-- `np.clip(d, -1, 1)`. -/
noncomputable def npClip (x : ℝ) : ℝ := min 1 (max (-1) x)

/-- `np.sqrt` with IEEE semantics: NaN (modelled as `none`) on a negative
argument. -/
noncomputable def npSqrt (x : ℝ) : Option ℝ := if x < 0 then none else some (Real.sqrt x)

/-- `scipy.integrate.simps` on data that may contain NaN: with at least
two points every input value enters the weighted combination, so any NaN
poisons the result; with at most one point the empty slices yield `0`
without reading the data. -/
noncomputable def simpsNaN (ys : List (Option ℝ)) (xs : List ℝ) : Option ℝ :=
  if ys.length ≤ 1 then some 0
  else if ys.any (fun y => y.isNone) then none
  else some (simpsList (ys.map (fun y => y.getD 0)) xs)

/-- Modelled from the spec: the external `SRSF` transform,
`sign(f')·sqrt(|f'|)` applied to the derivative values on the grid. -/
noncomputable def srsfVals (dvals : List ℝ) : List ℝ :=
  dvals.map (fun v => if v < 0 then -Real.sqrt (-v) else Real.sqrt v)

/-- Modelled from the spec: the external `l2_distance`: square root of the
quadrature-integrated squared pointwise difference over the grid. -/
noncomputable def l2_distance (ys1 ys2 grid : List ℝ) : ℝ :=
  Real.sqrt (simpsList (List.zipWith (fun a b => (a - b) ^ 2) ys1 ys2) grid)

/-- `fisher_rao_distance`: rescale the common grid onto `[0, 1]` (the
`copy` call relabels the grid, leaving the data values unchanged), take
both SRSFs there, return their L2 distance. -/
noncomputable def fisher_rao_distance (derivOp : List ℝ → List ℝ → List ℝ)
    (grid v1 v2 : List ℝ) : ℝ :=
  let ng := normalizeScale grid
  l2_distance (srsfVals (derivOp ng v1)) (srsfVals (derivOp ng v2)) ng

/-- The quadrature value `d` of `phase_distance`: `np.sqrt` of the optimal
warping's derivative values — the source applies no flooring of negative
values here, so a negative derivative value yields NaN — integrated over
the normalized evaluation grid. -/
noncomputable def phase_d (regWarpDeriv : List ℝ → List ℝ → List ℝ → List ℝ)
    (grid v1 v2 : List ℝ) : Option ℝ :=
  let ng := normalizeScale grid
  simpsNaN ((regWarpDeriv ng v1 v2).map npSqrt) ng

/-- `phase_distance`: `arccos(np.clip(d, -1, 1))`, NaN-propagating. -/
noncomputable def phase_distance (regWarpDeriv : List ℝ → List ℝ → List ℝ → List ℝ)
    (grid v1 v2 : List ℝ) : Option ℝ :=
  (phase_d regWarpDeriv grid v1 v2).map (fun d => Real.arccos (npClip d))

/-- The penalty quadrature of `amplitude_distance` when `lam != 0`:
`simps((np.sqrt(warping') - 1) ** 2)` — again with no flooring of negative
derivative values before the square root. -/
noncomputable def amplitudePenalty (dvals : List ℝ) (ng : List ℝ) : Option ℝ :=
  simpsNaN (dvals.map (fun v => (npSqrt v).map (fun r => (r - 1) ^ 2))) ng

/-- `amplitude_distance`: the registered L2 distance, with the
`lam`-weighted warping penalty folded in under a final square root when
`lam != 0`, and returned unchanged when `lam == 0`. -/
noncomputable def amplitude_distance (regWarpDeriv : List ℝ → List ℝ → List ℝ → List ℝ)
    (regL2dist : List ℝ → List ℝ → List ℝ → ℝ) (lam : ℝ)
    (grid v1 v2 : List ℝ) : Option ℝ :=
  let ng := normalizeScale grid
  let distance := regL2dist ng v1 v2
  if lam ≠ 0 then
    (amplitudePenalty (regWarpDeriv ng v1 v2) ng).bind
      (fun p => npSqrt (distance ^ 2 + lam * p))
  else some distance

/-- Modelled from the spec: the external `normalize_warping`: affine
rescale of a warping onto `[0,1] × [0,1]` — grid and values rescaled. -/
noncomputable def normalizeWarping (g v : List ℝ) : List ℝ × List ℝ :=
  (normalizeScale g, normalizeScale v)

/-- The quadrature value `d` of `warping_distance`: derivatives of the two
normalized warpings, negative values floored to `0` by the masked
assignment, elementwise square roots (the SRSFs of the warpings), their
pointwise product, integrated over the first warping's grid. -/
noncomputable def warping_d (derivOp : List ℝ → List ℝ → List ℝ)
    (g1 v1 g2 v2 : List ℝ) : ℝ :=
  let w1 := normalizeWarping g1 v1
  let w2 := normalizeWarping g2 v2
  let d1f := (derivOp w1.1 w1.2).map (fun v => if v < 0 then 0 else v)
  let d2f := (derivOp w2.1 w2.2).map (fun v => if v < 0 then 0 else v)
  let s1 := d1f.map Real.sqrt
  let s2 := d2f.map Real.sqrt
  simpsList (List.zipWith (fun a b => a * b) s1 s2) w1.1

/-- `warping_distance`: `arccos(np.clip(d, -1, 1))`. -/
noncomputable def warping_distance (derivOp : List ℝ → List ℝ → List ℝ)
    (g1 v1 g2 v2 : List ℝ) : ℝ :=
  Real.arccos (npClip (warping_d derivOp g1 v1 g2 v2))

/-- The SRSF of a warping as the warping-distance claim words it:
normalize onto `[0,1]`, derivative on the grid, floor negative values to
zero, take elementwise square roots. -/
noncomputable def warpingSRSFSpec (derivOp : List ℝ → List ℝ → List ℝ)
    (g v : List ℝ) : List ℝ :=
  (derivOp (normalizeScale g) (normalizeScale v)).map
    (fun t => Real.sqrt (max t 0))

/-- `warping_distance` as the claim words it: integrate the pointwise
product of the two warpings' SRSFs by quadrature to a value `d`, clamp `d`
into `[-1, 1]`, return `arccos d`. -/
noncomputable def warpingDistanceSpec (derivOp : List ℝ → List ℝ → List ℝ)
    (g1 v1 g2 v2 : List ℝ) : ℝ :=
  let d := simpsList
    (List.zipWith (fun a b => a * b)
      (warpingSRSFSpec derivOp g1 v1) (warpingSRSFSpec derivOp g2 v2))
    (normalizeScale g1)
  Real.arccos (min 1 (max (-1) d))

theorem max_zero_eq_ite (v : ℝ) : max v 0 = if v < 0 then 0 else v := by
  rcases lt_or_ge v 0 with h | h
  · simp [max_eq_right h.le, h]
  · simp [max_eq_left h, not_lt.2 h]

theorem zipWith_self_eq_map {α β : Type} (f : α → α → β) (l : List α) :
    List.zipWith f l l = l.map (fun a => f a a) := by
  induction l with
  | nil => rfl
  | cons a l ih => simp [ih]

/-!
## Claims about the depth engine
-/

/-- C1: For a fitted `BandDepth` whose reference sample has `N ≥ 2`
functions, `predict` returns, for every query function, the number of
unordered reference pairs `i < j` whose band contains the query at every
grid point (order-independent containment: the OR of the two symmetric
inequality masks, conjoined over the whole domain), divided by the total
pair count `C(N, 2)`. -/
theorem bandDepth_predict_pair_fraction (st : BandDepthState) (X : FDGrid)
    (hN : 2 ≤ st.distribution.data_matrix.length) :
    bandDepthPredict st X = .ok (X.data_matrix.map (fun q =>
      ((∑ i ∈ Finset.range st.distribution.data_matrix.length,
          ∑ j ∈ Finset.range st.distribution.data_matrix.length,
          if i < j ∧ bandContains (st.distribution.data_matrix.getD i [])
              (st.distribution.data_matrix.getD j []) q = true
          then 1 else 0 : ℕ) : ℚ) /
        (Nat.choose st.distribution.data_matrix.length 2 : ℚ))) := by
  have hlen : (combinations2 st.distribution.data_matrix).length =
      Nat.choose st.distribution.data_matrix.length 2 :=
    combinations2_length _
  have hpos : ¬(combinations2 st.distribution.data_matrix).length = 0 := by
    rw [hlen]
    exact (Nat.choose_pos hN).ne'
  unfold bandDepthPredict
  dsimp only
  rw [if_neg hpos]
  congr 1
  apply List.map_congr_left
  intro q _
  rw [countP_combinations2 (fun a b => bandContains a b q) _ ([] : List ℚ), hlen]

/-- C1 witness: a concrete two-function reference sample and query. -/
theorem bandDepth_predict_pair_fraction_witness :
    bandDepthPredict ⟨⟨[[0], [2]], [[0]], [(0, 1)], 1⟩⟩
      ⟨[[1]], [[0]], [(0, 1)], 1⟩ = .ok [1] := by
  have h := bandDepth_predict_pair_fraction ⟨⟨[[0], [2]], [[0]], [(0, 1)], 1⟩⟩
    ⟨[[1]], [[0]], [(0, 1)], 1⟩ (by decide)
  rw [h]
  have hb : bandContains [(0 : ℚ)] [2] [1] = true := by decide
  norm_num [hb]
  norm_cast

/-- C6: `BandDepth.fit` raises the domain-mismatch error
(`NotImplementedError`) exactly when the sample's codomain dimension is
not 1; otherwise it stores the reference sample and succeeds.
Vector-valued samples are never accepted. -/
theorem bandDepth_fit_codomain (X : FDGrid) :
    (X.dim_codomain = 1 → bandDepthFit X = .ok ⟨X⟩) ∧
    (X.dim_codomain ≠ 1 → bandDepthFit X = .error (.notImplementedError
      "Band depth not implemented for vector valued functions")) := by
  constructor <;> intro h <;> simp [bandDepthFit, h]

/-- C6 witness: a scalar-valued sample is stored, a 2-dimensional-codomain
sample is rejected. -/
theorem bandDepth_fit_codomain_witness :
    bandDepthFit ⟨[[0]], [[0]], [(0, 1)], 1⟩ = .ok ⟨⟨[[0]], [[0]], [(0, 1)], 1⟩⟩ ∧
    bandDepthFit ⟨[[0, 0]], [[0]], [(0, 1)], 2⟩ = .error (.notImplementedError
      "Band depth not implemented for vector valued functions") :=
  ⟨(bandDepth_fit_codomain _).1 rfl, (bandDepth_fit_codomain _).2 (by decide)⟩

/-- Row 1 of the literature 4-curve sample. -/
def litRow1 : List ℚ := [1, 1, 2, 3, mkRat 5 2, 2]

/-- Row 2 of the literature 4-curve sample. -/
def litRow2 : List ℚ := [mkRat 1 2, mkRat 1 2, 1, 2, mkRat 3 2, 1]

/-- Row 3 of the literature 4-curve sample. -/
def litRow3 : List ℚ := [-1, -1, mkRat (-1) 2, 1, 1, mkRat 1 2]

/-- Row 4 of the literature 4-curve sample. -/
def litRow4 : List ℚ := [mkRat (-1) 2, mkRat (-1) 2, mkRat (-1) 2, -1, -1, -1]

/-- The literature 4-curve sample on grid [0, 2, 4, 6, 8, 10]. -/
def literatureSample : FDGrid :=
  ⟨[litRow1, litRow2, litRow3, litRow4], [[0, 2, 4, 6, 8, 10]], [(0, 10)], 1⟩

/-- C8: the 4-curve sample's rows are [1, 1, 2, 3, 2.5, 2],
[0.5, 0.5, 1, 2, 1.5, 1], [-1, -1, -0.5, 1, 1, 0.5] and
[-0.5, -0.5, -0.5, -1, -1, -1]; fitting `BandDepth` on it and predicting
the same sample yields the reference depth vector [1/2, 5/6, 1/2, 1/2]. -/
theorem bandDepth_literature_values :
    literatureSample.data_matrix =
      [[1, 1, 2, 3, 5/2, 2], [1/2, 1/2, 1, 2, 3/2, 1],
       [-1, -1, -(1/2), 1, 1, 1/2], [-(1/2), -(1/2), -(1/2), -1, -1, -1]] ∧
    bandDepthFit literatureSample = .ok ⟨literatureSample⟩ ∧
    bandDepthPredict ⟨literatureSample⟩ literatureSample =
      .ok [1/2, 5/6, 1/2, 1/2] := by
  refine ⟨by norm_num [literatureSample, litRow1, litRow2, litRow3, litRow4,
    Rat.mkRat_eq_div], by decide, ?_⟩
  have h1 : (combinations2 [litRow1, litRow2, litRow3, litRow4]).countP
      (fun p => bandContains p.1 p.2 litRow1) = 3 := by decide
  have h2 : (combinations2 [litRow1, litRow2, litRow3, litRow4]).countP
      (fun p => bandContains p.1 p.2 litRow2) = 5 := by decide
  have h3 : (combinations2 [litRow1, litRow2, litRow3, litRow4]).countP
      (fun p => bandContains p.1 p.2 litRow3) = 3 := by decide
  have h4 : (combinations2 [litRow1, litRow2, litRow3, litRow4]).countP
      (fun p => bandContains p.1 p.2 litRow4) = 3 := by decide
  have hlen : (combinations2 [litRow1, litRow2, litRow3, litRow4]).length = 6 := by
    decide
  unfold bandDepthPredict
  dsimp only
  rw [if_neg (by decide)]
  show PyResult.ok ((literatureSample.data_matrix).map _) = _
  simp only [literatureSample, List.map_cons, List.map_nil, h1, h2, h3, h4, hlen]
  norm_num [litRow1, litRow2, litRow3, litRow4, Rat.mkRat_eq_div]

/-- C9 (amended): when the fitted reference sample has fewer than two
functions, `predict` fails by raising `ZeroDivisionError` at the zero-pair
division — it does not silently return NaN or Inf, but the failure is the
division error itself, not an explicit validation error. -/
theorem bandDepth_predict_underfull_raises (st : BandDepthState)
    (X : FDGrid) (h : st.distribution.data_matrix.length < 2) :
    bandDepthPredict st X = .error .zeroDivisionError := by
  unfold bandDepthPredict
  dsimp only
  rw [if_pos]
  rw [combinations2_length]
  exact Nat.choose_eq_zero_of_lt h

/-- C9 witness: a single-function reference sample. -/
theorem bandDepth_predict_underfull_raises_witness :
    (BandDepthState.mk ⟨[[1]], [[0]], [(0, 1)], 1⟩).distribution.data_matrix.length < 2 ∧
    bandDepthPredict ⟨⟨[[1]], [[0]], [(0, 1)], 1⟩⟩ ⟨[[1]], [[0]], [(0, 1)], 1⟩ =
      .error .zeroDivisionError :=
  ⟨by decide, bandDepth_predict_underfull_raises _ _ (by decide)⟩

/-- C9 counterexample to the claim as stated: with one reference function
the error `predict` fails with is `ZeroDivisionError`, raised by the
division itself; it is not the module's explicit validation error (the
`NotImplementedError` raised by `fit`) — no explicit N ≥ 2 validation
exists in `predict`. -/
theorem bandDepth_predict_underfull_error_kind :
    bandDepthPredict ⟨⟨[[1]], [[0]], [(0, 1)], 1⟩⟩ ⟨[[1]], [[0]], [(0, 1)], 1⟩ =
      .error .zeroDivisionError ∧
    PyError.zeroDivisionError ≠ PyError.notImplementedError
      "Band depth not implemented for vector valued functions" := by
  constructor
  · decide
  · intro h
    cases h

/-- C10: `IntegratedDepth.predict` does not depend on the domain range and
grid points recorded at fit time: two fitted states whose wrapped
multivariate primitives are in the same state produce equal predictions on
every query, because the loop reads the query's domain range and grid
points and the precomputed interval length is overwritten before use. -/
theorem integratedDepth_predict_ignores_fitted_domain
    (st1 st2 : IntegratedDepthState) (X : FDGrid)
    (h : st1.mvPredict = st2.mvPredict) :
    integratedDepthPredict st1 X = integratedDepthPredict st2 X := by
  unfold integratedDepthPredict
  rw [h]
  dsimp only
  apply List.map_congr_left
  intro fl _
  exact integLoop_init_len _ _ _ fl

/-- C10 witness: two states with different recorded domain ranges and grid
points but the same primitive state. -/
theorem integratedDepth_predict_ignores_fitted_domain_witness :
    (IntegratedDepthState.mk [(0, 1)] [[0, 1]] id).mvPredict =
      (IntegratedDepthState.mk [(5, 9)] [[3, 4, 5]] id).mvPredict ∧
    integratedDepthPredict ⟨[(0, 1)], [[0, 1]], id⟩
        ⟨[[1, 2]], [[0, 1]], [(0, 1)], 1⟩ =
      integratedDepthPredict ⟨[(5, 9)], [[3, 4, 5]], id⟩
        ⟨[[1, 2]], [[0, 1]], [(0, 1)], 1⟩ :=
  ⟨rfl, integratedDepth_predict_ignores_fitted_domain _ _ _ rfl⟩

/-- C3: For every fitted state and query whose `k` domain dimensions match
its grid-point axes and have non-degenerate intervals,
`IntegratedDepth.predict` equals the full-domain quadrature of the
pointwise depth values divided by the product of all `k` interval lengths:
the average pointwise depth, not the raw integral. -/
theorem integratedDepth_predict_average (st : IntegratedDepthState)
    (X : FDGrid) (hk : X.domain_range.length = X.grid_points.length)
    (_hnd : ∀ d ∈ X.domain_range, d.2 - d.1 ≠ 0) :
    integratedDepthPredict st X =
      (st.mvPredict X.data_matrix).map (fun fl =>
        (integrateAllFlat X.grid_points fl).map (fun v =>
          v / (X.domain_range.map (fun p => p.2 - p.1)).prod)) := by
  unfold integratedDepthPredict
  dsimp only
  apply List.map_congr_left
  intro fl _
  exact integLoop_eq_integrateAll X.domain_range X.grid_points hk _ fl

/-- C3 witness: a two-dimensional domain with intervals [0,1] and [0,2]. -/
theorem integratedDepth_predict_average_witness :
    (FDGrid.mk [[1, 1, 1, 1, 1, 1, 1, 1, 1]] [[0, mkRat 1 2, 1], [0, 1, 2]]
        [(0, 1), (0, 2)] 1).domain_range.length =
      (FDGrid.mk [[1, 1, 1, 1, 1, 1, 1, 1, 1]] [[0, mkRat 1 2, 1], [0, 1, 2]]
        [(0, 1), (0, 2)] 1).grid_points.length ∧
    (∀ d ∈ (FDGrid.mk [[1, 1, 1, 1, 1, 1, 1, 1, 1]] [[0, mkRat 1 2, 1], [0, 1, 2]]
        [(0, 1), (0, 2)] 1).domain_range, d.2 - d.1 ≠ 0) ∧
    integratedDepthPredict ⟨[(0, 1)], [[0, 1]], id⟩
        ⟨[[1, 1, 1, 1, 1, 1, 1, 1, 1]], [[0, mkRat 1 2, 1], [0, 1, 2]],
          [(0, 1), (0, 2)], 1⟩ =
      ((IntegratedDepthState.mk [(0, 1)] [[0, 1]] id).mvPredict
          [[1, 1, 1, 1, 1, 1, 1, 1, 1]]).map (fun fl =>
        (integrateAllFlat [[0, mkRat 1 2, 1], [0, 1, 2]] fl).map (fun v =>
          v / ([((0 : ℚ), (1 : ℚ)), (0, 2)].map (fun p => p.2 - p.1)).prod)) :=
  ⟨by decide, by norm_num,
    integratedDepth_predict_average ⟨[(0, 1)], [[0, 1]], id⟩ _ (by decide) (by norm_num)⟩

/-!
## Claims about the elastic metric engine
-/

/-- A negative warping-derivative artifact value, as produced by finite
differencing near a domain boundary. -/
noncomputable def negArtifact : ℝ := -(1/100)

/-- C2: the code at a failing input — a registration warping whose
derivative on the evaluation grid has a negative boundary-artifact value:
`phase_distance` and the `lam > 0` penalty branch of `amplitude_distance`
apply `np.sqrt` directly, with no flooring of the negative value, so NaN
is produced and propagates to the returned distance instead of the finite
result that flooring to zero before the square root would give. -/
theorem phase_amplitude_negative_derivative_nan :
    phase_distance (fun _ _ _ => [1, 1, negArtifact]) [0, 1/2, 1]
      [0, 1/2, 1] [0, 1/2, 1] = none ∧
    amplitude_distance (fun _ _ _ => [1, 1, negArtifact]) (fun _ _ _ => 0) 1
      [0, 1/2, 1] [0, 1/2, 1] [0, 1/2, 1] = none := by
  have hneg : npSqrt negArtifact = none := by
    unfold npSqrt negArtifact
    rw [if_pos (by norm_num)]
  have hone : npSqrt (1 : ℝ) = some 1 := by
    unfold npSqrt
    rw [if_neg (by norm_num), Real.sqrt_one]
  constructor
  · unfold phase_distance phase_d simpsNaN
    simp [hneg, hone]
  · unfold amplitude_distance amplitudePenalty simpsNaN
    simp [hneg, hone]

/-- Flooring as the spec words it (`max t 0`) coincides with the source's
masked assignment (`t[t < 0] = 0`), composed under the square root. -/
theorem sqrt_map_ite_eq_map_max (l : List ℝ) :
    (l.map (fun v => if v < 0 then 0 else v)).map Real.sqrt =
      l.map (fun t => Real.sqrt (max t 0)) := by
  rw [List.map_map]
  apply List.map_congr_left
  intro v _
  simp only [Function.comp]
  rw [max_zero_eq_ite]

/-- C4: `warping_distance` computes exactly the spec's recipe: normalize
both warpings to [0, 1], compute each derivative on the grid, floor
negative derivative values to zero, take elementwise square roots,
integrate the pointwise product by quadrature to `d`, clamp `d` into
[-1, 1], and return `arccos d`. -/
theorem warping_distance_eq_spec (derivOp : List ℝ → List ℝ → List ℝ)
    (g1 v1 g2 v2 : List ℝ) (_hg : g1 = g2) :
    warping_distance derivOp g1 v1 g2 v2 =
      warpingDistanceSpec derivOp g1 v1 g2 v2 := by
  unfold warping_distance warping_d npClip warpingDistanceSpec
    warpingSRSFSpec normalizeWarping
  dsimp only
  rw [sqrt_map_ite_eq_map_max, sqrt_map_ite_eq_map_max]

/-- C4 witness: a concrete common grid and derivative operator. -/
theorem warping_distance_eq_spec_witness :
    warping_distance (fun _ l => l) [0, 1/2, 1] [0, 1/2, 1]
        [0, 1/2, 1] [0, 1/2, 1] =
      warpingDistanceSpec (fun _ l => l) [0, 1/2, 1] [0, 1/2, 1]
        [0, 1/2, 1] [0, 1/2, 1] :=
  warping_distance_eq_spec _ _ _ _ _ rfl

/-- C5 counterexample: on the admissible strongly non-uniform grid
[0, 1/10, 1] the composite Simpson weights are not all nonnegative; with
(already nonnegative) warping-derivative values [1, 0, 0] the quadrature
value is -7/6, the clip takes it to -1 and `warping_distance` returns π,
which is outside [0, π/2]. -/
theorem warping_distance_outside_upper_quarter :
    warping_distance (fun _ _ => [1, 0, 0]) [0, 1/10, 1] [0, 1/10, 1]
      [0, 1/10, 1] [0, 1/10, 1] ∉ Set.Icc 0 (Real.pi / 2) := by
  have hgrid : normalizeScale [0, 1/10, 1] = [0, 1/10, 1] := by
    unfold normalizeScale
    norm_num
  have hd : warping_d (fun _ _ => [1, 0, 0]) [0, 1/10, 1] [0, 1/10, 1]
      [0, 1/10, 1] [0, 1/10, 1] = -(7/6) := by
    unfold warping_d normalizeWarping
    dsimp only
    rw [hgrid]
    norm_num [simpsList, basicSimpson, List.range_succ, List.range_zero, Real.sqrt_one,
      Real.sqrt_zero, List.getD_cons_zero, List.getD_cons_succ]
  have hclip : npClip (-(7/6)) = -1 := by
    unfold npClip
    rw [max_eq_left (by norm_num), min_eq_right (by norm_num)]
  unfold warping_distance
  rw [hd, hclip, Real.arccos_neg_one]
  simp only [Set.mem_Icc, not_and, not_le]
  intro _
  linarith [Real.pi_pos]

/-- C5 (amended): both distances are `arccos` of a clipped quadrature
value; the returned value lies in [0, π/2] provided that quadrature value
is nonnegative (for `phase_distance`, additionally provided it is a
number at all — no NaN from a negative derivative value).  The clip and
`arccos` alone only bound the result by [0, π]. -/
theorem phase_warping_distance_range (derivOp : List ℝ → List ℝ → List ℝ)
    (g1 v1 g2 v2 : List ℝ)
    (regWarpDeriv : List ℝ → List ℝ → List ℝ → List ℝ)
    (grid w1 w2 : List ℝ) (d : ℝ)
    (hw : 0 ≤ warping_d derivOp g1 v1 g2 v2)
    (hp : phase_d regWarpDeriv grid w1 w2 = some d) (hd : 0 ≤ d) :
    warping_distance derivOp g1 v1 g2 v2 ∈ Set.Icc 0 (Real.pi / 2) ∧
    phase_distance regWarpDeriv grid w1 w2 = some (Real.arccos (npClip d)) ∧
    Real.arccos (npClip d) ∈ Set.Icc 0 (Real.pi / 2) := by
  have hmem : ∀ x : ℝ, 0 ≤ x →
      Real.arccos (npClip x) ∈ Set.Icc 0 (Real.pi / 2) := by
    intro x hx
    constructor
    · exact Real.arccos_nonneg _
    · rw [Real.arccos_le_pi_div_two]
      unfold npClip
      exact le_min zero_le_one (le_max_of_le_right hx)
  refine ⟨?_, ?_, hmem _ hd⟩
  · show Real.arccos (npClip (warping_d derivOp g1 v1 g2 v2)) ∈ _
    exact hmem _ hw
  · unfold phase_distance
    rw [hp]
    rfl

/-- C5 witness: inputs whose quadrature values are 1. -/
theorem phase_warping_distance_range_witness :
    0 ≤ warping_d (fun _ _ => [1, 1, 1]) [0, 1/2, 1] [0, 1/2, 1]
      [0, 1/2, 1] [0, 1/2, 1] ∧
    phase_d (fun _ _ _ => [1, 1, 1]) [0, 1/2, 1] [0, 1/2, 1] [0, 1/2, 1] =
      some 1 ∧
    (warping_distance (fun _ _ => [1, 1, 1]) [0, 1/2, 1] [0, 1/2, 1]
        [0, 1/2, 1] [0, 1/2, 1] ∈ Set.Icc 0 (Real.pi / 2) ∧
      phase_distance (fun _ _ _ => [1, 1, 1]) [0, 1/2, 1] [0, 1/2, 1]
        [0, 1/2, 1] = some (Real.arccos (npClip 1)) ∧
      Real.arccos (npClip 1) ∈ Set.Icc 0 (Real.pi / 2)) := by
  have hgrid : normalizeScale [0, 1/2, 1] = [0, 1/2, 1] := by
    unfold normalizeScale
    norm_num
  have hw : 0 ≤ warping_d (fun _ _ => [1, 1, 1]) [0, 1/2, 1] [0, 1/2, 1]
      [0, 1/2, 1] [0, 1/2, 1] := by
    unfold warping_d normalizeWarping
    dsimp only
    rw [hgrid]
    norm_num [simpsList, basicSimpson, List.range_succ, List.range_zero, Real.sqrt_one,
      List.getD_cons_zero, List.getD_cons_succ]
  have hp : phase_d (fun _ _ _ => [1, 1, 1]) [0, 1/2, 1] [0, 1/2, 1]
      [0, 1/2, 1] = some 1 := by
    unfold phase_d npSqrt simpsNaN
    rw [hgrid]
    norm_num [simpsList, basicSimpson, List.range_succ, List.range_zero, Real.sqrt_one,
      List.getD_cons_zero, List.getD_cons_succ]
  exact ⟨hw, hp,
    phase_warping_distance_range _ _ _ _ _ _ _ _ _ 1 hw hp (by norm_num)⟩

/-- C7: the Fisher-Rao distance is symmetric in its two arguments, and is
zero when both arguments are the same function (exactly, in the real
model; the claim's floating-point tolerance is subsumed by equality). -/
theorem fisher_rao_symm_and_refl (derivOp : List ℝ → List ℝ → List ℝ)
    (grid v1 v2 : List ℝ) :
    fisher_rao_distance derivOp grid v1 v2 =
      fisher_rao_distance derivOp grid v2 v1 ∧
    fisher_rao_distance derivOp grid v1 v1 = 0 := by
  constructor
  · unfold fisher_rao_distance l2_distance
    dsimp only
    rw [List.zipWith_comm_of_comm (fun a b : ℝ => (a - b) ^ 2)
      (fun a b => by ring)]
  · unfold fisher_rao_distance l2_distance
    dsimp only
    rw [zipWith_self_eq_map, simpsList_zero, Real.sqrt_zero]
    intro y hy
    rcases List.mem_map.1 hy with ⟨a, _, rfl⟩
    ring
